import Mathlib

/-!
Verification of the RESP protocol codec and hash-map command layer of the
rust-bootcamp-02-redis repository.

Bytes are modelled as natural numbers (`u8` values), byte buffers as
`List Nat`.  The Rust decoders mutate a `BytesMut` buffer in place; here each
decoder takes the buffer and returns the decode result paired with the buffer
as it is left after the call, so consumption of bytes is the difference
between input and output buffer.
-/

abbrev Bytes := List Nat

/-- The error enum of `src/resp/mod.rs` (`RespError`).  The payloads of the
`ParseIntError`, `Utf8Error` and `ParseFloatError` variants wrap foreign
`std` error values in Rust and are dropped here. -/
inductive RespError where
  | InvalidFrame (msg : String)
  | InvalidFrameType (msg : String)
  | InvalidFrameLength (len : Int)
  | NotComplete
  | ParseIntError
  | Utf8Error
  | ParseFloatError
deriving DecidableEq, Repr

/-- `BulkString` of `src/resp/bulk_string.rs`: a newtype over `Vec<u8>`. -/
structure BulkString where
  data : Bytes
deriving DecidableEq, Repr

/-- `RespNull` of `src/resp/null.rs`: a payload-free marker struct. -/
structure RespNull
deriving DecidableEq, Repr

/-- Decimal digit characters of `n`, most significant first, produced with an
explicit fuel argument so that the definition is structurally recursive
(`fuel ≥ n` makes the result exact).  Mirrors Rust `format!` on unsigned
integers apart from the `n = 0` case, handled in `natDecimal`. -/
def natDecAux : Nat → Nat → Bytes
  | 0, _ => []
  | fuel + 1, n => if n = 0 then [] else natDecAux fuel (n / 10) ++ [n % 10 + 48]

/-- Decimal representation of a natural number as ASCII bytes, as produced by
Rust `format!` (`0` prints as `"0"`). -/
def natDecimal (n : Nat) : Bytes :=
  if n = 0 then [48] else natDecAux n n

/-- Decimal representation of a signed integer as ASCII bytes, as produced by
Rust `format!` on `i64`/`isize` values. -/
def intDecimal (i : Int) : Bytes :=
  if i < 0 then 45 :: natDecimal i.natAbs else natDecimal i.natAbs

/-- ASCII decimal digit test. -/
def isDigitB (c : Nat) : Bool := decide (48 ≤ c) && decide (c ≤ 57)

/-- Numeric value of a digit string (most significant first). -/
def digitsVal (l : Bytes) : Nat :=
  l.foldl (fun a c => a * 10 + (c - 48)) 0

/-- Parse a non-empty all-digit byte string, as Rust `str::parse` does for an
unsigned integer body. -/
def parseDigits (l : Bytes) : Option Nat :=
  if l = [] then none
  else if l.all isDigitB then some (digitsVal l) else none

/-- Parse an optionally signed decimal byte string, as Rust `str::parse` does
for signed integers (an optional leading `+` or `-`, then digits). -/
def parseSigned (l : Bytes) : Option Int :=
  match l with
  | [] => none
  | c :: rest =>
    if c = 43 then (parseDigits rest).map (fun n => (n : Int))
    else if c = 45 then (parseDigits rest).map (fun n => -(n : Int))
    else (parseDigits (c :: rest)).map (fun n => (n : Int))

/-- Rust `str::parse::<i64>`: signed decimal parse plus the `i64` range
check. -/
def parseI64 (l : Bytes) : Option Int :=
  match parseSigned l with
  | none => none
  | some i => if -(2 ^ 63) ≤ i ∧ i < 2 ^ 63 then some i else none

/-- Index (relative to the scanned list) of the first CR LF pair. -/
def findCRLFAux : Bytes → Option Nat
  | [] => none
  | [_] => none
  | a :: b :: t =>
    if a = 13 && b = 10 then some 0
    else (findCRLFAux (b :: t)).map (fun j => j + 1)

/-- Modelled from the spec: the Length/Token Scanner's
`find_terminator(buffer, start)` (spec section 4.1); the helper itself lives
in `src/resp/mod.rs`/`decoder.rs`, which are not part of the provided
sources.  Scans for the two-byte CR LF terminator starting at `start` and
returns its absolute position, or `none` when the terminator is not yet
present. -/
def find_crlf (buf : Bytes) (start : Nat) : Option Nat :=
  (findCRLFAux (buf.drop start)).map (fun j => j + start)

/-- Modelled from the spec: the missing helper `extract_simple_frame_data`
used by `i64::decode` and `parse_length` (spec section 4.1).  Verifies the
buffer begins with the prefix, then locates the terminator: a buffer shorter
than the prefix is `NotComplete`, a wrong prefix is `InvalidFrameType`, a
missing terminator is `NotComplete`; on success the terminator position is
returned. -/
def extract_simple_frame_data (buf pfx : Bytes) : Except RespError Nat :=
  if List.isPrefixOf pfx buf then
    match find_crlf buf pfx.length with
    | some e => .ok e
    | none => .error .NotComplete
  else if buf.length < pfx.length then .error .NotComplete
  else .error (.InvalidFrameType "SimpleFrame")

/-- Modelled from the spec: the missing helper `parse_length`
(`parse_prefixed_length` in spec section 4.1) used by `BulkString::decode`.
Verifies the prefix, locates the terminator and parses the decimal integer
between them; a parse failure yields `InvalidFrame`, a negative value yields
`InvalidFrameLength` (the null sentinel is intercepted by the caller before
this function runs). -/
def parse_length (buf pfx : Bytes) : Except RespError (Nat × Nat) :=
  match extract_simple_frame_data buf pfx with
  | .error e => .error e
  | .ok endPos =>
    match parseSigned ((buf.drop pfx.length).take (endPos - pfx.length)) with
    | none => .error (.InvalidFrame "length")
    | some i =>
      if i < 0 then .error (.InvalidFrameLength i) else .ok (endPos, i.toNat)

/-- Modelled from the spec: the missing helper `extract_fixed_data`
(`match_fixed_token` in spec section 4.1) used by `RespNull::decode`.  A
buffer shorter than the literal is `NotComplete`; a long-enough but different
buffer is `InvalidFrameType`; on success the literal's bytes are consumed. -/
def extract_fixed_data (buf expect : Bytes) (typ : String) :
    Except RespError Unit × Bytes :=
  if buf.length < expect.length then (.error .NotComplete, buf)
  else if List.isPrefixOf expect buf then (.ok (), buf.drop expect.length)
  else (.error (.InvalidFrameType typ), buf)

/-- The literal `NULL_BULK_STRING` marker `b"$-1\r\n"` of
`src/resp/bulk_string.rs`. -/
def NULL_BULK_STRING : Bytes := [36, 45, 49, 13, 10]

/-- `impl RespEncoder for BulkString` (`src/resp/bulk_string.rs` lines
19-31): an empty payload encodes as the null bulk string marker, otherwise
`$<length>\r\n<data>\r\n`. -/
def BulkString.encode (self : BulkString) : Bytes :=
  if self.data = [] then NULL_BULK_STRING
  else [36] ++ natDecimal self.data.length ++ [13, 10] ++ self.data ++ [13, 10]

/-- `BulkString::decode` (`src/resp/bulk_string.rs` lines 35-51).  Returns
the decode result together with the buffer as left after the call. -/
def BulkString.decode (buf : Bytes) : Except RespError BulkString × Bytes :=
  if List.isPrefixOf NULL_BULK_STRING buf then
    (.ok ⟨[]⟩, buf.drop NULL_BULK_STRING.length)
  else
    match parse_length buf [36] with
    | .error e => (.error e, buf)
    | .ok (endPos, len) =>
      if (buf.drop (endPos + 2)).length < len + 2 then
        (.error .NotComplete, buf)
      else
        (.ok ⟨(buf.drop (endPos + 2)).take len⟩,
          buf.drop (endPos + 2 + len + 2))

/-- `impl RespEncoder for i64` (`src/resp/integer.rs` lines 6-10):
`:<value>\r\n` with Rust `format!` rendering of the signed value. -/
def i64.encode (i : Int) : Bytes :=
  [58] ++ intDecimal i ++ [13, 10]

/-- `i64::decode` (`src/resp/integer.rs` lines 14-20).  Note that the Rust
code splits the frame off the buffer before parsing the numeric body, so on a
numeric parse failure the frame's bytes have already been consumed. -/
def i64.decode (buf : Bytes) : Except RespError Int × Bytes :=
  match extract_simple_frame_data buf [58] with
  | .error e => (.error e, buf)
  | .ok endPos =>
    match parseI64 ((buf.drop 1).take (endPos - 1)) with
    | some i => (.ok i, buf.drop (endPos + 2))
    | none => (.error .ParseIntError, buf.drop (endPos + 2))

/-- `impl RespEncoder for RespNull` (`src/resp/null.rs` lines 9-13):
the fixed bytes `_\r\n`. -/
def RespNull.encode (_self : RespNull) : Bytes := [95, 13, 10]

/-- `RespNull::decode` (`src/resp/null.rs` lines 17-20). -/
def RespNull.decode (buf : Bytes) : Except RespError RespNull × Bytes :=
  match extract_fixed_data buf [95, 13, 10] "Null" with
  | (.ok _, b2) => (.ok ⟨⟩, b2)
  | (.error e, b2) => (.error e, b2)

/-- The canonical non-null bulk-string wire frame for a payload:
`$<length>\r\n<data>\r\n`.  For a non-empty payload this is exactly
`BulkString.encode`; for the empty payload it is the zero-length frame
`$0\r\n\r\n`, which the encoder never produces. -/
def bulkFrameBytes (data : Bytes) : Bytes :=
  [36] ++ natDecimal data.length ++ [13, 10] ++ data ++ [13, 10]

/-- The canonical integer wire frame `:<value>\r\n`. -/
def intFrameBytes (i : Int) : Bytes :=
  [58] ++ intDecimal i ++ [13, 10]

/-- The `RespFrame` tagged union of `src/resp/mod.rs` lines 23-36.  The
newtype wrappers `RespArray(Vec<RespFrame>)`, `RespMap`, `RespSet`,
`NullBulkString` and `RespNullArray` are inlined as constructor payloads.
The `Double(f64)` variant is omitted: no claim concerns it and floating
point is outside the embedding. -/
inductive RespFrame where
  | simpleString (s : String)
  | simpleError (s : String)
  | integer (i : Int)
  | bulkString (b : BulkString)
  | nullBulkString
  | array (elems : List RespFrame)
  | nullArray
  | null
  | boolean (b : Bool)
  | map (entries : List (String × RespFrame))
  | set (elems : List RespFrame)

/-- `RespArray` of `src/resp/mod.rs` line 69, with the newtype inlined. -/
abbrev RespArray := List RespFrame

/-- Modelled from the spec: the `NullBulkString` frame's encoder lives in the
missing `src/resp/encoder.rs`; per the spec's data model and wire grammar
(sections 3 and 6) the null bulk string encodes as the `$-1` sentinel
followed by the terminator. -/
def NullBulkString.encode : Bytes := [36, 45, 49, 13, 10]

/-- Byte contents of a Rust `String` (ASCII-faithful model: each character is
mapped to its code point; all strings handled by the claims are ASCII). -/
def strBytes (s : String) : Bytes := s.toList.map Char.toNat

/-- `HGetAll` command struct (declared in the missing `src/cmd/mod.rs`, used
by `src/cmd/hmap.rs`): a key plus a sort flag. -/
structure HGetAll where
  key : String
  sort : Bool

/-- `HMGet` command struct (declared in the missing `src/cmd/mod.rs`, used by
`src/cmd/hmap.rs`): a hash name plus the requested field names. -/
structure HMGet where
  hash : String
  fields : List String

/-- Modelled from the spec: the command-layer error enum `CommandError`
(missing `src/cmd/mod.rs`), with the variants used by `src/cmd/hmap.rs`. -/
inductive CommandError where
  | RespError (e : RespError)
  | InvalidCommand (msg : String)
  | InvalidArgument (msg : String)
  | Utf8Error
deriving DecidableEq, Repr

/-- Modelled from the spec: the key-value storage backend (spec section 1
names it only at its interface boundary; `src/backend.rs` is not among the
provided sources).  The hash-map store is an association list from hash name
to an association list from field name to frame, in iteration order. -/
structure Backend where
  hmap : List (String × List (String × RespFrame))

/-- Modelled from the spec: `backend.hmap.get(&key)` — look up the hash map
stored under a key. -/
def Backend.hmapGet (b : Backend) (key : String) :
    Option (List (String × RespFrame)) :=
  (b.hmap.find? (fun e => e.1 == key)).map (fun e => e.2)

/-- Modelled from the spec: `backend.hget(&key, &field)` — look up one field
of the hash stored under a key. -/
def Backend.hget (b : Backend) (key field : String) : Option RespFrame :=
  match b.hmapGet key with
  | some m => (m.find? (fun e => e.1 == field)).map (fun e => e.2)
  | none => none

/-- Stable insertion by key, modelling the stable `data.sort_by` call of
`src/cmd/hmap.rs` line 28 (sort by the `String` key, earlier entries first
among equal keys). -/
def insertByKey (x : String × RespFrame) :
    List (String × RespFrame) → List (String × RespFrame)
  | [] => [x]
  | y :: ys => if x.1 ≤ y.1 then x :: y :: ys else y :: insertByKey x ys

/-- Stable sort by key, modelling `data.sort_by(|a, b| a.0.cmp(&b.0))` of
`src/cmd/hmap.rs` line 28. -/
def sortByKey : List (String × RespFrame) → List (String × RespFrame)
  | [] => []
  | x :: xs => insertByKey x (sortByKey xs)

/-- `impl CommandExecutor for HGetAll` (`src/cmd/hmap.rs` lines 16-40): when
the key holds a hash, flatten its (optionally sorted) entries into
alternating field/value frames; when the key is absent, return an empty
array frame. -/
def HGetAll.execute (self : HGetAll) (backend : Backend) : RespFrame :=
  match backend.hmapGet self.key with
  | some m =>
    let data := if self.sort then sortByKey m else m
    RespFrame.array
      (data.flatMap (fun kv => [RespFrame.bulkString ⟨strBytes kv.1⟩, kv.2]))
  | none => RespFrame.array []

/-- `impl CommandExecutor for HMGet` (`src/cmd/hmap.rs` lines 42-54): one
element per requested field, the stored value or the null frame. -/
def HMGet.execute (self : HMGet) (backend : Backend) : RespFrame :=
  RespFrame.array
    (self.fields.map (fun f =>
      match backend.hget self.hash f with
      | some value => value
      | none => RespFrame.null))

/-- ASCII lower-casing of a byte. -/
def asciiLower (c : Nat) : Nat :=
  if 65 ≤ c ∧ c ≤ 90 then c + 32 else c

/-- Modelled from the spec: `validate_command` (missing `src/cmd/mod.rs`),
as called from `src/cmd/hmap.rs` — checks that the decoded array has exactly
`names.length + nArgs` elements and begins with bulk strings spelling the
command name, matched case-insensitively. -/
def validate_command (value : RespArray) (names : List String) (nArgs : Nat) :
    Except CommandError Unit :=
  if value.length ≠ names.length + nArgs then
    .error (.InvalidCommand "wrong number of arguments")
  else if (names.zip value).all (fun p =>
      match p.2 with
      | RespFrame.bulkString b => b.data.map asciiLower == strBytes p.1
      | _ => false) then
    .ok ()
  else
    .error (.InvalidCommand "invalid command name")

/-- Modelled from the spec: `extract_args` (missing `src/cmd/mod.rs`),
as called from `src/cmd/hmap.rs` — the arguments after the command name. -/
def extract_args (value : RespArray) (start : Nat) :
    Except CommandError (List RespFrame) :=
  .ok (value.drop start)

/-- Modelled from the spec: `String::from_utf8` at the command boundary,
restricted to the ASCII subset the claims exercise (non-ASCII bytes are
rejected rather than UTF-8 decoded). -/
def utf8String (l : Bytes) : Option String :=
  if l.all (fun c => decide (c < 128)) then
    some (String.mk (l.map Char.ofNat))
  else none

/-- `impl TryFrom<RespArray> for HGetAll` (`src/cmd/hmap.rs` lines 81-95):
validate the `hgetall` shape, take the key argument, and construct the
command with the sort flag set to `false`. -/
def HGetAll.tryFrom (value : RespArray) : Except CommandError HGetAll :=
  match validate_command value ["hgetall"] 1 with
  | .error e => .error e
  | .ok _ =>
    match extract_args value 1 with
    | .error e => .error e
    | .ok args =>
      match args.head? with
      | some (RespFrame.bulkString key) =>
        match utf8String key.data with
        | some s => .ok { key := s, sort := false }
        | none => .error .Utf8Error
      | _ => .error (.InvalidArgument "Invalid key")

/-! ### Decimal digit lemmas -/

theorem digitsVal_append (xs : Bytes) (d : Nat) :
    digitsVal (xs ++ [d]) = 10 * digitsVal xs + (d - 48) := by
  simp [digitsVal, List.foldl_append]
  omega

theorem natDecAux_digits :
    ∀ fuel n, ∀ c ∈ natDecAux fuel n, 48 ≤ c ∧ c ≤ 57 := by
  intro fuel
  induction fuel with
  | zero => intro n c hc; simp [natDecAux] at hc
  | succ f ih =>
    intro n c hc
    by_cases hn : n = 0
    · simp [natDecAux, hn] at hc
    · simp only [natDecAux, hn, if_false, List.mem_append, List.mem_singleton] at hc
      rcases hc with h | h
      · exact ih _ c h
      · have : n % 10 < 10 := Nat.mod_lt _ (by norm_num)
        omega

theorem natDecAux_val : ∀ fuel n, n ≤ fuel → digitsVal (natDecAux fuel n) = n := by
  intro fuel
  induction fuel with
  | zero =>
    intro n h
    have : n = 0 := by omega
    subst this
    simp [natDecAux, digitsVal]
  | succ f ih =>
    intro n h
    by_cases hn : n = 0
    · subst hn; simp [natDecAux, digitsVal]
    · have hdiv : n / 10 ≤ f := by
        have := Nat.div_lt_self (Nat.pos_of_ne_zero hn) (by norm_num : 1 < 10)
        omega
      simp only [natDecAux, hn, if_false]
      rw [digitsVal_append, ih _ hdiv, Nat.add_sub_cancel]
      omega

theorem natDecimal_digits (n : Nat) : ∀ c ∈ natDecimal n, 48 ≤ c ∧ c ≤ 57 := by
  intro c hc
  by_cases hn : n = 0
  · subst hn; simp [natDecimal] at hc; omega
  · simp only [natDecimal, hn, if_false] at hc
    exact natDecAux_digits n n c hc

theorem natDecimal_ne_nil (n : Nat) : natDecimal n ≠ [] := by
  by_cases hn : n = 0
  · subst hn; simp [natDecimal]
  · obtain ⟨m, rfl⟩ := Nat.exists_eq_succ_of_ne_zero hn
    simp [natDecimal, natDecAux]

theorem natDecimal_no_cr (n : Nat) : 13 ∉ natDecimal n := by
  intro hc
  have := natDecimal_digits n 13 hc
  omega

theorem parseDigits_natDecimal (n : Nat) : parseDigits (natDecimal n) = some n := by
  have hne := natDecimal_ne_nil n
  have hall : (natDecimal n).all isDigitB = true := by
    rw [List.all_eq_true]
    intro c hc
    have := natDecimal_digits n c hc
    simp [isDigitB]
    omega
  rw [parseDigits, if_neg hne, if_pos hall]
  by_cases hn : n = 0
  · subst hn; simp [natDecimal, digitsVal]
  · simp only [natDecimal, hn, if_false]
    rw [natDecAux_val n n le_rfl]

theorem parseSigned_natDecimal (n : Nat) :
    parseSigned (natDecimal n) = some (n : Int) := by
  obtain ⟨c, t, hct⟩ := List.exists_cons_of_ne_nil (natDecimal_ne_nil n)
  have hc : 48 ≤ c ∧ c ≤ 57 :=
    natDecimal_digits n c (by rw [hct]; exact List.mem_cons_self c t)
  have h43 : ¬ c = 43 := by omega
  have h45 : ¬ c = 45 := by omega
  rw [hct, parseSigned, if_neg h43, if_neg h45, ← hct, parseDigits_natDecimal]
  rfl

theorem parseI64_intDecimal (i : Int) (h1 : -(2 ^ 63) ≤ i) (h2 : i < 2 ^ 63) :
    parseI64 (intDecimal i) = some i := by
  have hps : parseSigned (intDecimal i) = some i := by
    by_cases hneg : i < 0
    · have habs : ((-i).natAbs : Int) = -i := Int.natAbs_of_nonneg (by omega)
      rw [Int.natAbs_neg] at habs
      rw [intDecimal, if_pos hneg, parseSigned, if_neg (by norm_num),
        if_pos rfl, parseDigits_natDecimal]
      simp [habs]
    · rw [intDecimal, if_neg hneg, parseSigned_natDecimal,
        Int.natAbs_of_nonneg (by omega)]
  rw [parseI64, hps]
  show (if -(2 ^ 63) ≤ i ∧ i < 2 ^ 63 then some i else none) = some i
  rw [if_pos ⟨h1, h2⟩]

theorem intDecimal_no_cr (i : Int) : 13 ∉ intDecimal i := by
  intro hc
  rw [intDecimal] at hc
  by_cases hneg : i < 0
  · rw [if_pos hneg] at hc
    rcases List.mem_cons.mp hc with h | h
    · omega
    · exact natDecimal_no_cr _ h
  · rw [if_neg hneg] at hc
    exact natDecimal_no_cr _ hc

/-! ### Terminator scanning lemmas -/

theorem findCRLFAux_none_of_no_cr : ∀ l : Bytes, 13 ∉ l → findCRLFAux l = none := by
  intro l
  induction l with
  | nil => intro _; rfl
  | cons a t ih =>
    intro h
    have ha : ¬ a = 13 := fun hh => h (by rw [hh]; exact List.mem_cons_self 13 t)
    have h2 : 13 ∉ t := fun hh => h (List.mem_cons_of_mem a hh)
    cases t with
    | nil => rfl
    | cons b t2 => simp [findCRLFAux, ha, ih h2]

theorem findCRLFAux_append_cr :
    ∀ xs : Bytes, 13 ∉ xs → findCRLFAux (xs ++ [13]) = none := by
  intro xs
  induction xs with
  | nil => intro _; rfl
  | cons a t ih =>
    intro h
    have ha : ¬ a = 13 := fun hh => h (by rw [hh]; exact List.mem_cons_self 13 t)
    have h2 : 13 ∉ t := fun hh => h (List.mem_cons_of_mem a hh)
    cases t with
    | nil => simp [findCRLFAux, ha]
    | cons b t2 =>
      have hr := ih h2
      rw [List.cons_append] at hr
      simp [findCRLFAux, ha, hr]

theorem findCRLFAux_header :
    ∀ xs rest : Bytes, 13 ∉ xs →
      findCRLFAux (xs ++ 13 :: 10 :: rest) = some xs.length := by
  intro xs
  induction xs with
  | nil => intro rest _; simp [findCRLFAux]
  | cons a t ih =>
    intro rest h
    have ha : ¬ a = 13 := fun hh => h (by rw [hh]; exact List.mem_cons_self 13 t)
    have h2 : 13 ∉ t := fun hh => h (List.mem_cons_of_mem a hh)
    cases t with
    | nil => simp [findCRLFAux, ha]
    | cons b t2 =>
      have hr := ih rest h2
      rw [List.cons_append] at hr
      simp only [List.cons_append, findCRLFAux, ha]
      simp [hr]

theorem findCRLFAux_take_header (xs rest : Bytes) (h : 13 ∉ xs) (m : Nat)
    (hm : m < xs.length + 2) :
    findCRLFAux ((xs ++ 13 :: 10 :: rest).take m) = none := by
  rcases Nat.lt_or_ge m (xs.length + 1) with h1 | h1
  · rw [List.take_append_of_le_length (by omega)]
    exact findCRLFAux_none_of_no_cr _ (fun hc => h (List.mem_of_mem_take hc))
  · have hm1 : m = xs.length + 1 := by omega
    subst hm1
    rw [List.take_append_eq_append_take, List.take_of_length_le (by omega),
      show xs.length + 1 - xs.length = 1 from by omega]
    exact findCRLFAux_append_cr xs h

/-! ### Frame-header extraction lemmas -/

theorem extract_simple_header (p : Nat) (xs rest : Bytes) (h : 13 ∉ xs) :
    extract_simple_frame_data (p :: (xs ++ 13 :: 10 :: rest)) [p] =
      .ok (xs.length + 1) := by
  have hp : List.isPrefixOf [p] (p :: (xs ++ 13 :: 10 :: rest)) = true := by
    simp [List.isPrefixOf]
  rw [extract_simple_frame_data, if_pos hp]
  rw [find_crlf]
  simp only [List.length_singleton, List.drop_succ_cons, List.drop_zero]
  rw [findCRLFAux_header xs rest h]
  rfl

theorem extract_simple_incomplete (p : Nat) (t : Bytes)
    (h : findCRLFAux t = none) :
    extract_simple_frame_data (p :: t) [p] = .error .NotComplete := by
  have hp : List.isPrefixOf [p] (p :: t) = true := by
    simp [List.isPrefixOf]
  rw [extract_simple_frame_data, if_pos hp]
  rw [find_crlf]
  simp only [List.length_singleton, List.drop_succ_cons, List.drop_zero]
  rw [h]
  rfl

theorem parse_length_header (L : Nat) (rest : Bytes) :
    parse_length (36 :: (natDecimal L ++ 13 :: 10 :: rest)) [36] =
      .ok ((natDecimal L).length + 1, L) := by
  have hnc : 13 ∉ natDecimal L := natDecimal_no_cr L
  rw [parse_length, extract_simple_header 36 (natDecimal L) rest hnc]
  simp only [List.length_singleton, List.drop_succ_cons, List.drop_zero,
    Nat.add_sub_cancel, List.take_left]
  rw [parseSigned_natDecimal]
  simp

/-! ### Null-marker prefix-check lemmas -/

theorem null_marker_check_bulk (D t : Bytes)
    (hdig : ∀ c ∈ D, 48 ≤ c ∧ c ≤ 57) (hne : D ≠ []) :
    List.isPrefixOf NULL_BULK_STRING (36 :: (D ++ t)) = false := by
  obtain ⟨d, D2, hD⟩ := List.exists_cons_of_ne_nil hne
  have hd : 48 ≤ d := (hdig d (by rw [hD]; exact List.mem_cons_self d D2)).1
  have h45 : ¬ (45 = d) := by omega
  rw [hD]
  simp [NULL_BULK_STRING, List.isPrefixOf, h45]

/-- Dropping the full `<head byte><digits>CR LF` header of a frame. -/
theorem drop_header (p : Nat) (D R : Bytes) :
    (p :: (D ++ 13 :: 10 :: R)).drop (D.length + 1 + 2) = R := by
  have h : p :: (D ++ 13 :: 10 :: R) = (p :: D ++ [13, 10]) ++ R := by simp
  have hl : (p :: D ++ [13, 10]).length = D.length + 1 + 2 := by simp
  rw [h, ← hl, List.drop_left]

/-! ### Bulk string decode lemmas -/

theorem bulk_decode_frame (data rest : Bytes) :
    BulkString.decode (bulkFrameBytes data ++ rest) = (.ok ⟨data⟩, rest) := by
  have hdig := natDecimal_digits data.length
  have hne := natDecimal_ne_nil data.length
  have hbuf : bulkFrameBytes data ++ rest =
      36 :: (natDecimal data.length ++ 13 :: 10 :: (data ++ 13 :: 10 :: rest)) := by
    simp [bulkFrameBytes]
  rw [hbuf, BulkString.decode,
    if_neg (by rw [null_marker_check_bulk _ _ hdig hne]; exact Bool.false_ne_true),
    parse_length_header data.length (data ++ 13 :: 10 :: rest)]
  simp only [drop_header]
  rw [if_neg (by simp)]
  have hval : (data ++ 13 :: 10 :: rest).take data.length = data := by
    have : data ++ 13 :: 10 :: rest = data ++ (13 :: 10 :: rest) := rfl
    rw [this, List.take_left]
  have hdrop : (36 :: (natDecimal data.length ++ 13 :: 10 :: (data ++ 13 :: 10 :: rest))).drop
      ((natDecimal data.length).length + 1 + 2 + data.length + 2) = rest := by
    rw [show (natDecimal data.length).length + 1 + 2 + data.length + 2 =
        ((natDecimal data.length).length + 1 + 2) + (data.length + 2) from by omega,
      ← List.drop_drop, drop_header]
    rw [show data ++ 13 :: 10 :: rest = (data ++ [13, 10]) ++ rest from by simp]
    rw [show data.length + 2 = (data ++ [13, 10]).length from by simp,
      List.drop_left]
  rw [hval, hdrop]

theorem bulk_decode_take_notComplete (data : Bytes) (k : Nat)
    (hk : k < (bulkFrameBytes data).length) :
    BulkString.decode ((bulkFrameBytes data).take k) =
      (.error .NotComplete, (bulkFrameBytes data).take k) := by
  have hdig := natDecimal_digits data.length
  have hne := natDecimal_ne_nil data.length
  have hnc : 13 ∉ natDecimal data.length := natDecimal_no_cr data.length
  have hbuf : bulkFrameBytes data =
      36 :: (natDecimal data.length ++ 13 :: 10 :: (data ++ [13, 10])) := by
    simp [bulkFrameBytes]
  have hlen : (bulkFrameBytes data).length =
      (natDecimal data.length).length + data.length + 5 := by
    rw [hbuf]; simp; omega
  cases k with
  | zero => rfl
  | succ m =>
    rw [hbuf, List.take_succ_cons]
    have hmT : m < (natDecimal data.length).length + data.length + 4 := by
      rw [hlen] at hk; omega
    rcases Nat.lt_or_ge m ((natDecimal data.length).length + 2) with hcase | hcase
    · -- the length header's terminator is not yet complete
      have hfind : findCRLFAux
          ((natDecimal data.length ++ 13 :: 10 :: (data ++ [13, 10])).take m) = none :=
        findCRLFAux_take_header _ _ hnc m hcase
      have hmark : List.isPrefixOf NULL_BULK_STRING
          (36 :: (natDecimal data.length ++ 13 :: 10 :: (data ++ [13, 10])).take m) =
            false := by
        cases m with
        | zero => rfl
        | succ m2 =>
          obtain ⟨d, D2, hD⟩ := List.exists_cons_of_ne_nil hne
          have hd : 48 ≤ d := (hdig d (by rw [hD]; exact List.mem_cons_self d D2)).1
          have h45 : ¬ (45 = d) := by omega
          rw [hD, List.cons_append, List.take_succ_cons]
          simp [NULL_BULK_STRING, List.isPrefixOf, h45]
      rw [BulkString.decode, if_neg (by rw [hmark]; exact Bool.false_ne_true)]
      rw [parse_length, extract_simple_incomplete 36 _ hfind]
    · -- header complete, body incomplete
      have hTt : (natDecimal data.length ++ 13 :: 10 :: (data ++ [13, 10])).take m =
          natDecimal data.length ++ 13 :: 10 ::
            ((data ++ [13, 10]).take (m - ((natDecimal data.length).length + 2))) := by
        rw [List.take_append_eq_append_take, List.take_of_length_le (by omega),
          show m - (natDecimal data.length).length =
            (m - ((natDecimal data.length).length + 2)) + 2 from by omega]
        rfl
      rw [hTt]
      have hr : ((data ++ [13, 10]).take
          (m - ((natDecimal data.length).length + 2))).length < data.length + 2 := by
        rw [List.length_take]
        have h2 : (data ++ [13, 10]).length = data.length + 2 := by simp
        rw [h2]
        omega
      rw [BulkString.decode,
        if_neg (by rw [null_marker_check_bulk _ _ hdig hne]; exact Bool.false_ne_true),
        parse_length_header data.length _]
      simp only [drop_header]
      rw [if_pos hr]

theorem bulk_decode_null_marker (rest : Bytes) :
    BulkString.decode (NULL_BULK_STRING ++ rest) = (.ok ⟨[]⟩, rest) := by
  rw [BulkString.decode, if_pos (by simp [NULL_BULK_STRING, List.isPrefixOf])]
  rfl

theorem bulk_decode_null_marker_take (k : Nat) (hk : k < 5) :
    BulkString.decode (NULL_BULK_STRING.take k) =
      (.error .NotComplete, NULL_BULK_STRING.take k) := by
  interval_cases k <;> rfl

/-! ### Integer decode lemmas -/

theorem int_decode_frame (i : Int) (h1 : -(2 ^ 63) ≤ i) (h2 : i < 2 ^ 63)
    (rest : Bytes) :
    i64.decode (intFrameBytes i ++ rest) = (.ok i, rest) := by
  have hnc : 13 ∉ intDecimal i := intDecimal_no_cr i
  have hbuf : intFrameBytes i ++ rest = 58 :: (intDecimal i ++ 13 :: 10 :: rest) := by
    simp [intFrameBytes]
  rw [hbuf, i64.decode, extract_simple_header 58 (intDecimal i) rest hnc]
  simp only [List.drop_succ_cons, List.drop_zero, Nat.add_sub_cancel,
    List.take_left]
  rw [parseI64_intDecimal i h1 h2]
  rw [show intDecimal i ++ 13 :: 10 :: rest = (intDecimal i ++ [13, 10]) ++ rest from by simp,
    show (intDecimal i).length + 2 = (intDecimal i ++ [13, 10]).length from by simp,
    List.drop_left]

theorem int_decode_take_notComplete (i : Int) (k : Nat)
    (hk : k < (intFrameBytes i).length) :
    i64.decode ((intFrameBytes i).take k) =
      (.error .NotComplete, (intFrameBytes i).take k) := by
  have hnc : 13 ∉ intDecimal i := intDecimal_no_cr i
  have hbuf : intFrameBytes i = 58 :: (intDecimal i ++ 13 :: 10 :: []) := by
    simp [intFrameBytes]
  have hlen : (intFrameBytes i).length = (intDecimal i).length + 3 := by
    rw [hbuf]; simp
  cases k with
  | zero => rfl
  | succ m =>
    rw [hbuf, List.take_succ_cons]
    have hm : m < (intDecimal i).length + 2 := by rw [hlen] at hk; omega
    have hfind : findCRLFAux ((intDecimal i ++ 13 :: 10 :: []).take m) = none :=
      findCRLFAux_take_header _ _ hnc m hm
    rw [i64.decode, extract_simple_incomplete 58 _ hfind]

/-! ### Null decode lemmas -/

theorem null_decode_frame (rest : Bytes) :
    RespNull.decode ([95, 13, 10] ++ rest) = (.ok ⟨⟩, rest) := by
  rw [RespNull.decode, extract_fixed_data,
    if_neg (by simp), if_pos (by simp [List.isPrefixOf])]
  simp

theorem null_decode_take_notComplete (k : Nat) (hk : k < 3) :
    RespNull.decode (List.take k [95, 13, 10]) =
      (.error .NotComplete, List.take k [95, 13, 10]) := by
  interval_cases k <;> rfl

/-! ### NotComplete never consumes -/

theorem bulk_decode_notComplete_preserves (buf : Bytes)
    (h : (BulkString.decode buf).1 = .error .NotComplete) :
    (BulkString.decode buf).2 = buf := by
  rw [BulkString.decode] at h ⊢
  by_cases h1 : List.isPrefixOf NULL_BULK_STRING buf = true
  · rw [if_pos h1] at h; simp at h
  · rw [if_neg h1] at h ⊢
    cases hpl : parse_length buf [36] with
    | error e => simp only [hpl] at h ⊢
    | ok p =>
      obtain ⟨endPos, len⟩ := p
      simp only [hpl] at h ⊢
      by_cases h2 : (List.drop (endPos + 2) buf).length < len + 2
      · simp only [if_pos h2]
      · rw [if_neg h2] at h; simp at h

theorem int_decode_notComplete_preserves (buf : Bytes)
    (h : (i64.decode buf).1 = .error .NotComplete) :
    (i64.decode buf).2 = buf := by
  rw [i64.decode] at h ⊢
  cases hex : extract_simple_frame_data buf [58] with
  | error e => simp only [hex] at h ⊢
  | ok endPos =>
    simp only [hex] at h ⊢
    cases hp : parseI64 ((buf.drop 1).take (endPos - 1)) with
    | none => simp only [hp] at h; simp at h
    | some i => simp only [hp] at h; simp at h

theorem null_decode_notComplete_preserves (buf : Bytes)
    (h : (RespNull.decode buf).1 = .error .NotComplete) :
    (RespNull.decode buf).2 = buf := by
  rw [RespNull.decode, extract_fixed_data] at h ⊢
  by_cases h1 : List.length buf < [95, 13, 10].length
  · rw [if_pos h1]
  · by_cases h2 : List.isPrefixOf [95, 13, 10] buf = true
    · rw [if_neg h1, if_pos h2] at h
      simp at h
    · rw [if_neg h1, if_neg h2]

/-! ### Command layer lemmas -/

theorem hmget_execute_elements (cmd : HMGet) (backend : Backend) :
    ∃ l, HMGet.execute cmd backend = RespFrame.array l ∧
      l.length = cmd.fields.length ∧
      ∀ (i : Nat) (f : String), cmd.fields[i]? = some f →
        l[i]? = some ((backend.hget cmd.hash f).getD RespFrame.null) := by
  refine ⟨_, rfl, by simp [HMGet.execute], ?_⟩
  intro i f hf
  rw [List.getElem?_map, hf]
  cases hv : backend.hget cmd.hash f <;> simp [hv]

theorem hgetall_execute_absent (cmd : HGetAll) (backend : Backend)
    (h : backend.hmapGet cmd.key = none) :
    HGetAll.execute cmd backend = RespFrame.array [] := by
  rw [HGetAll.execute, h]

theorem tryFrom_sort_false (value : RespArray) (cmd : HGetAll)
    (h : HGetAll.tryFrom value = .ok cmd) : cmd.sort = false := by
  rw [HGetAll.tryFrom] at h
  cases hv : validate_command value ["hgetall"] 1 with
  | error e => simp only [hv] at h; exact Except.noConfusion h
  | ok u =>
    simp only [hv, extract_args] at h
    cases hh : (value.drop 1).head? with
    | none => simp only [hh] at h; exact Except.noConfusion h
    | some fr =>
      simp only [hh] at h
      cases fr with
      | bulkString b =>
        cases hu : utf8String b.data with
        | none => simp only [hu] at h; exact Except.noConfusion h
        | some s =>
          simp only [hu] at h
          injection h with h2
          rw [← h2]
      | simpleString s => exact Except.noConfusion h
      | simpleError s => exact Except.noConfusion h
      | integer i => exact Except.noConfusion h
      | nullBulkString => exact Except.noConfusion h
      | array elems => exact Except.noConfusion h
      | nullArray => exact Except.noConfusion h
      | null => exact Except.noConfusion h
      | boolean b => exact Except.noConfusion h
      | map entries => exact Except.noConfusion h
      | set elems => exact Except.noConfusion h

/-! ### Negative length helper lemmas -/

theorem null_marker_check_neg (D rest : Bytes)
    (hdig : ∀ c ∈ D, 48 ≤ c ∧ c ≤ 57) (hne : D ≠ []) (h49 : D ≠ [49]) :
    List.isPrefixOf NULL_BULK_STRING (36 :: 45 :: (D ++ 13 :: 10 :: rest)) =
      false := by
  obtain ⟨d, D2, hD⟩ := List.exists_cons_of_ne_nil hne
  rw [hD]
  cases D2 with
  | nil =>
    have hd49 : ¬ (49 = d) := by
      intro hh
      exact h49 (by rw [hD, ← hh])
    simp [NULL_BULK_STRING, List.isPrefixOf, hd49]
  | cons d2 D3 =>
    have hd2 : 48 ≤ d2 := (hdig d2 (by rw [hD]; simp)).1
    have h13 : ¬ (13 = d2) := by omega
    simp [NULL_BULK_STRING, List.isPrefixOf, h13]

theorem parse_length_negative (n : Nat) (hn : 1 ≤ n) (rest : Bytes) :
    parse_length (36 :: 45 :: (natDecimal n ++ 13 :: 10 :: rest)) [36] =
      .error (.InvalidFrameLength (-(n : Int))) := by
  have hnc : 13 ∉ (45 :: natDecimal n) := by
    intro hc
    rcases List.mem_cons.mp hc with h | h
    · omega
    · exact natDecimal_no_cr n h
  have hex := extract_simple_header 36 (45 :: natDecimal n) rest hnc
  simp only [List.cons_append, List.length_cons] at hex
  rw [parse_length, hex]
  simp only [List.length_singleton, List.drop_succ_cons, List.drop_zero,
    Nat.add_sub_cancel]
  have htk : (45 :: (natDecimal n ++ 13 :: 10 :: rest)).take
      ((natDecimal n).length + 1) = 45 :: natDecimal n := by
    rw [List.take_succ_cons, List.take_append_of_le_length le_rfl,
      List.take_of_length_le le_rfl]
  rw [htk, parseSigned, if_neg (by norm_num), if_pos rfl,
    parseDigits_natDecimal]
  have hneg : -(n : Int) < 0 := by omega
  simp [hneg]

/-! ### Claim theorems -/

/-- C1 (counterexample): decoding the null marker `$-1\r\n` with
`BulkString::decode` yields the empty `BulkString`, whose frame is the
bulk-string variant, not the null bulk-string variant of the frame union. -/
theorem C1_counterexample :
    (BulkString.decode NULL_BULK_STRING).1 = .ok (BulkString.mk []) ∧
    RespFrame.bulkString (BulkString.mk []) ≠ RespFrame.nullBulkString :=
  ⟨rfl, fun h => RespFrame.noConfusion h⟩

/-- C1 (amended): decoding `$-1\r\n` with the bulk-string codec yields the
empty bulk string `BulkString([])` — the codec's collapsed representation of
the null bulk string — and consumes exactly the five marker bytes; the value
decoded from `$5\r\nhello\r\n` differs from the value decoded from
`$-1\r\n`. -/
theorem C1_amended :
    (∀ rest : Bytes,
      BulkString.decode (NULL_BULK_STRING ++ rest) = (.ok ⟨[]⟩, rest)) ∧
    (BulkString.decode [36, 53, 13, 10, 104, 101, 108, 108, 111, 13, 10]).1 =
      .ok ⟨[104, 101, 108, 108, 111]⟩ ∧
    BulkString.mk [104, 101, 108, 108, 111] ≠ BulkString.mk [] :=
  ⟨bulk_decode_null_marker, rfl, by decide⟩

/-- C1 (witness): the amended statement applied to a concrete trailing
buffer. -/
theorem C1_witness :
    BulkString.decode (NULL_BULK_STRING ++ [99]) = (.ok ⟨[]⟩, [99]) :=
  C1_amended.1 [99]

/-- C2 (counterexample): the empty bulk string and the null bulk string are
distinct values, yet both encode to the marker bytes `$-1\r\n`, and decoding
those bytes yields the empty bulk string — so the two values do not
round-trip distinctly. -/
theorem C2_counterexample :
    BulkString.encode ⟨[]⟩ = NullBulkString.encode ∧
    (BulkString.decode NullBulkString.encode).1 = .ok (BulkString.mk []) ∧
    RespFrame.nullBulkString ≠ RespFrame.bulkString (BulkString.mk []) :=
  ⟨rfl, rfl, fun h => RespFrame.noConfusion h⟩

/-- C2 (amended): the empty bulk string and the null bulk string are distinct
values, but they do not round-trip distinctly: the encoder collapses the
empty bulk string onto the null marker `$-1\r\n` — the same bytes as the null
bulk string's wire form — and decoding that marker yields the empty bulk
string. -/
theorem C2_amended :
    RespFrame.bulkString (BulkString.mk []) ≠ RespFrame.nullBulkString ∧
    BulkString.encode ⟨[]⟩ = [36, 45, 49, 13, 10] ∧
    NullBulkString.encode = [36, 45, 49, 13, 10] ∧
    BulkString.decode [36, 45, 49, 13, 10] = (.ok ⟨[]⟩, []) :=
  ⟨fun h => RespFrame.noConfusion h, rfl, rfl, rfl⟩

/-- C3 (counterexample): the canonical zero-length bulk-string frame
`$0\r\n\r\n` decodes to the empty bulk string, which re-encodes as the null
marker `$-1\r\n`, not as the original bytes. -/
theorem C3_counterexample :
    (BulkString.decode [36, 48, 13, 10, 13, 10]).1 = .ok (BulkString.mk []) ∧
    BulkString.encode ⟨[]⟩ = [36, 45, 49, 13, 10] ∧
    BulkString.encode ⟨[]⟩ ≠ [36, 48, 13, 10, 13, 10] :=
  ⟨rfl, rfl, by decide⟩

/-- C3 (amended): for every canonical encoded frame of an implemented variant
except the zero-length bulk string — every non-empty bulk-string frame, the
null bulk-string marker, every in-range integer frame, and the null frame —
re-encoding the decoded value reproduces exactly the original bytes. -/
theorem C3_amended :
    (∀ data : Bytes, data ≠ [] →
      (BulkString.decode (bulkFrameBytes data)).1 = .ok ⟨data⟩ ∧
      BulkString.encode ⟨data⟩ = bulkFrameBytes data) ∧
    ((BulkString.decode NULL_BULK_STRING).1 = .ok ⟨[]⟩ ∧
      BulkString.encode ⟨[]⟩ = NULL_BULK_STRING) ∧
    (∀ i : Int, -(2 ^ 63) ≤ i → i < 2 ^ 63 →
      (i64.decode (intFrameBytes i)).1 = .ok i ∧
      i64.encode i = intFrameBytes i) ∧
    ((RespNull.decode [95, 13, 10]).1 = .ok ⟨⟩ ∧
      RespNull.encode ⟨⟩ = [95, 13, 10]) := by
  refine ⟨?_, ⟨rfl, rfl⟩, ?_, ⟨rfl, rfl⟩⟩
  · intro data hdata
    constructor
    · have h := bulk_decode_frame data []
      rw [List.append_nil] at h
      rw [h]
    · rw [BulkString.encode, if_neg hdata]
      rfl
  · intro i h1 h2
    constructor
    · have h := int_decode_frame i h1 h2 []
      rw [List.append_nil] at h
      rw [h]
    · rfl

/-- C3 (witness): the amended statement applied at a one-byte bulk payload
and at the integer 42. -/
theorem C3_witness :
    (([104] : Bytes) ≠ [] ∧
      (BulkString.decode (bulkFrameBytes [104])).1 = .ok ⟨[104]⟩ ∧
      BulkString.encode ⟨[104]⟩ = bulkFrameBytes [104]) ∧
    (-(2 ^ 63) ≤ (42 : Int) ∧ (42 : Int) < 2 ^ 63 ∧
      (i64.decode (intFrameBytes 42)).1 = .ok 42 ∧
      i64.encode 42 = intFrameBytes 42) :=
  ⟨⟨by decide, (C3_amended.1 [104] (by decide)).1, (C3_amended.1 [104] (by decide)).2⟩,
    ⟨by decide, by decide, (C3_amended.2.2.1 42 (by decide) (by decide)).1,
      (C3_amended.2.2.1 42 (by decide) (by decide)).2⟩⟩

/-- C4: for every valid value of the implemented variants — every in-range
signed 64-bit integer, the null frame, and every bulk string including the
empty one — decoding its encoding returns the original value and consumes the
whole encoding. -/
theorem C4_roundtrip :
    (∀ i : Int, -(2 ^ 63) ≤ i → i < 2 ^ 63 →
      i64.decode (i64.encode i) = (.ok i, [])) ∧
    (∀ data : Bytes,
      BulkString.decode (BulkString.encode ⟨data⟩) = (.ok ⟨data⟩, [])) ∧
    RespNull.decode (RespNull.encode ⟨⟩) = (.ok ⟨⟩, []) := by
  refine ⟨?_, ?_, rfl⟩
  · intro i h1 h2
    have h := int_decode_frame i h1 h2 []
    rw [List.append_nil] at h
    exact h
  · intro data
    by_cases hdata : data = []
    · subst hdata
      have h := bulk_decode_null_marker []
      rw [List.append_nil] at h
      rw [BulkString.encode, if_pos rfl]
      exact h
    · rw [BulkString.encode, if_neg hdata]
      have h := bulk_decode_frame data []
      rw [List.append_nil] at h
      exact h

/-- C4 (witness): the round-trip applied at the integer -7 and at a
two-byte and an empty bulk payload. -/
theorem C4_witness :
    (-(2 ^ 63) ≤ (-7 : Int) ∧ (-7 : Int) < 2 ^ 63 ∧
      i64.decode (i64.encode (-7)) = (.ok (-7), [])) ∧
    BulkString.decode (BulkString.encode ⟨[104, 105]⟩) = (.ok ⟨[104, 105]⟩, []) ∧
    BulkString.decode (BulkString.encode ⟨[]⟩) = (.ok ⟨[]⟩, []) :=
  ⟨⟨by decide, by decide, C4_roundtrip.1 (-7) (by decide) (by decide)⟩,
    C4_roundtrip.2.1 [104, 105], C4_roundtrip.2.1 []⟩

/-- C5 (counterexample): on the malformed integer frame `:ab\r\n` the
integer decoder consumes all five bytes while returning a numeric-parse
error, so bytes can be consumed although no complete, valid instance was
found. -/
theorem C5_counterexample :
    (i64.decode [58, 97, 98, 13, 10]).1 = .error .ParseIntError ∧
    (i64.decode [58, 97, 98, 13, 10]).2 = [] ∧
    ([] : Bytes) ≠ [58, 97, 98, 13, 10] :=
  ⟨rfl, rfl, by decide⟩

/-- C5 (amended): whenever a variant decoder (bulk string, integer or null)
returns `NotComplete`, it has consumed no bytes — the buffer is left exactly
as it was before the call.  (Consumption-only-on-success does not extend to
malformed errors: the integer decoder consumes the frame before its numeric
parse.) -/
theorem C5_amended :
    (∀ buf : Bytes, (BulkString.decode buf).1 = .error .NotComplete →
      (BulkString.decode buf).2 = buf) ∧
    (∀ buf : Bytes, (i64.decode buf).1 = .error .NotComplete →
      (i64.decode buf).2 = buf) ∧
    (∀ buf : Bytes, (RespNull.decode buf).1 = .error .NotComplete →
      (RespNull.decode buf).2 = buf) :=
  ⟨bulk_decode_notComplete_preserves, int_decode_notComplete_preserves,
    null_decode_notComplete_preserves⟩

/-- C5 (witness): the amended statement applied to a one-byte bulk-string
buffer, which is incomplete and left untouched. -/
theorem C5_witness :
    (BulkString.decode [36]).1 = .error .NotComplete ∧
    (BulkString.decode [36]).2 = [36] :=
  ⟨rfl, C5_amended.1 [36] rfl⟩

/-- C6: every strict prefix of a valid encoded frame (any bulk-string frame
including the zero-length one, the null bulk-string marker, any in-range
integer frame, the null frame) decodes to `NotComplete` with the buffer
untouched; the full frame decodes to its value with every byte consumed. -/
theorem C6_incremental :
    (∀ (data : Bytes) (k : Nat), k < (bulkFrameBytes data).length →
      BulkString.decode ((bulkFrameBytes data).take k) =
        (.error .NotComplete, (bulkFrameBytes data).take k)) ∧
    (∀ data : Bytes,
      BulkString.decode (bulkFrameBytes data) = (.ok ⟨data⟩, [])) ∧
    (∀ k : Nat, k < 5 →
      BulkString.decode (NULL_BULK_STRING.take k) =
        (.error .NotComplete, NULL_BULK_STRING.take k)) ∧
    BulkString.decode NULL_BULK_STRING = (.ok ⟨[]⟩, []) ∧
    (∀ (i : Int) (k : Nat), k < (intFrameBytes i).length →
      i64.decode ((intFrameBytes i).take k) =
        (.error .NotComplete, (intFrameBytes i).take k)) ∧
    (∀ i : Int, -(2 ^ 63) ≤ i → i < 2 ^ 63 →
      i64.decode (intFrameBytes i) = (.ok i, [])) ∧
    (∀ k : Nat, k < 3 →
      RespNull.decode (List.take k [95, 13, 10]) =
        (.error .NotComplete, List.take k [95, 13, 10])) ∧
    RespNull.decode [95, 13, 10] = (.ok ⟨⟩, []) := by
  refine ⟨bulk_decode_take_notComplete, ?_, bulk_decode_null_marker_take, rfl,
    int_decode_take_notComplete, ?_, null_decode_take_notComplete, rfl⟩
  · intro data
    have h := bulk_decode_frame data []
    rwa [List.append_nil] at h
  · intro i h1 h2
    have h := int_decode_frame i h1 h2 []
    rwa [List.append_nil] at h

/-- C6 (witness): the incremental-decoding statement applied to the
bulk-string frame for "hi" cut after five bytes, and to the integer frame
for -3 cut after two bytes. -/
theorem C6_witness :
    (5 < (bulkFrameBytes [104, 105]).length ∧
      BulkString.decode ((bulkFrameBytes [104, 105]).take 5) =
        (.error .NotComplete, (bulkFrameBytes [104, 105]).take 5) ∧
      BulkString.decode (bulkFrameBytes [104, 105]) = (.ok ⟨[104, 105]⟩, [])) ∧
    (2 < (intFrameBytes (-3)).length ∧
      i64.decode ((intFrameBytes (-3)).take 2) =
        (.error .NotComplete, (intFrameBytes (-3)).take 2) ∧
      -(2 ^ 63) ≤ (-3 : Int) ∧ (-3 : Int) < 2 ^ 63 ∧
      i64.decode (intFrameBytes (-3)) = (.ok (-3), [])) :=
  ⟨⟨by decide, C6_incremental.1 [104, 105] 5 (by decide),
      C6_incremental.2.1 [104, 105]⟩,
    ⟨by decide, C6_incremental.2.2.2.2.1 (-3) 2 (by decide), by decide, by decide,
      C6_incremental.2.2.2.2.2.1 (-3) (by decide) (by decide)⟩⟩

/-- C7: a bulk-string input whose length field is `-n` for canonical digits
of any `n ≥ 2` (every negative length other than the null sentinel `-1`)
decodes to `InvalidFrameLength`, with the buffer untouched. -/
theorem C7_negative_length (n : Nat) (hn : 2 ≤ n) (rest : Bytes) :
    BulkString.decode (36 :: 45 :: (natDecimal n ++ 13 :: 10 :: rest)) =
      (.error (.InvalidFrameLength (-(n : Int))),
        36 :: 45 :: (natDecimal n ++ 13 :: 10 :: rest)) := by
  have hdig := natDecimal_digits n
  have hne := natDecimal_ne_nil n
  have h49 : natDecimal n ≠ [49] := by
    intro hEq
    have h := parseDigits_natDecimal n
    rw [hEq] at h
    simp [parseDigits, isDigitB, digitsVal] at h
    omega
  rw [BulkString.decode,
    if_neg (by rw [null_marker_check_neg (natDecimal n) rest hdig hne h49]
               exact Bool.false_ne_true),
    parse_length_negative n (by omega) rest]

/-- C7 (witness): the negative-length rejection applied to the concrete
input `$-2\r\n`. -/
theorem C7_witness :
    BulkString.decode (36 :: 45 :: (natDecimal 2 ++ 13 :: 10 :: [])) =
      (.error (.InvalidFrameLength (-(2 : Int))),
        36 :: 45 :: (natDecimal 2 ++ 13 :: 10 :: [])) :=
  C7_negative_length 2 (by decide) []

/-- C8: `HMGet::execute` returns an array frame with exactly one element per
requested field, in request order; element `i` is the value stored for field
`i` in the named hash, or the null frame when that field is absent. -/
theorem C8_hmget_shape (cmd : HMGet) (backend : Backend) :
    ∃ l, HMGet.execute cmd backend = RespFrame.array l ∧
      l.length = cmd.fields.length ∧
      ∀ (i : Nat) (f : String), cmd.fields[i]? = some f →
        l[i]? = some ((backend.hget cmd.hash f).getD RespFrame.null) :=
  hmget_execute_elements cmd backend

/-- C8 (witness): the element-wise description applied to a concrete
backend holding one hash with one field, requesting a present and an absent
field. -/
theorem C8_witness :
    ∃ l, HMGet.execute ⟨"h", ["a", "b"]⟩
        (Backend.mk [("h", [("a", RespFrame.integer 1)])]) = RespFrame.array l ∧
      l.length = (["a", "b"] : List String).length ∧
      ∀ (i : Nat) (f : String), (["a", "b"] : List String)[i]? = some f →
        l[i]? = some (((Backend.mk [("h", [("a", RespFrame.integer 1)])]).hget
          "h" f).getD RespFrame.null) :=
  C8_hmget_shape ⟨"h", ["a", "b"]⟩ (Backend.mk [("h", [("a", RespFrame.integer 1)])])

/-- C9: when the key is absent from the backend, `HGetAll::execute` returns
the empty array frame — never the null frame (nor any other frame). -/
theorem C9_hgetall_absent (cmd : HGetAll) (backend : Backend)
    (h : backend.hmapGet cmd.key = none) :
    HGetAll.execute cmd backend = RespFrame.array [] ∧
    RespFrame.array ([] : List RespFrame) ≠ RespFrame.null :=
  ⟨hgetall_execute_absent cmd backend h, fun hh => RespFrame.noConfusion hh⟩

/-- C9 (witness): the absent-key behaviour on the empty backend. -/
theorem C9_witness :
    (Backend.mk []).hmapGet "k" = none ∧
    HGetAll.execute ⟨"k", false⟩ (Backend.mk []) = RespFrame.array [] :=
  ⟨rfl, (C9_hgetall_absent ⟨"k", false⟩ (Backend.mk []) rfl).1⟩

/-- C10: every `HGetAll` command constructed from a wire frame through
`TryFrom<RespArray>` has its sort flag equal to `false`. -/
theorem C10_sort_false (value : RespArray) (cmd : HGetAll)
    (h : HGetAll.tryFrom value = .ok cmd) : cmd.sort = false :=
  tryFrom_sort_false value cmd h

/-- C10 (witness): a concrete `hgetall` wire frame parses to a command whose
sort flag is `false`. -/
theorem C10_witness :
    HGetAll.tryFrom [RespFrame.bulkString ⟨strBytes "hgetall"⟩,
        RespFrame.bulkString ⟨strBytes "map"⟩] =
      .ok { key := "map", sort := false } ∧
    ({ key := "map", sort := false } : HGetAll).sort = false :=
  ⟨rfl, C10_sort_false
    [RespFrame.bulkString ⟨strBytes "hgetall"⟩, RespFrame.bulkString ⟨strBytes "map"⟩]
    { key := "map", sort := false } rfl⟩
